import Mathlib

/-!
A verification development for the labelstudio-to-fonduer core: the
canonicalization / alignment / conversion layer that reconciles Label Studio
annotations (region based) with Fonduer candidates (sentence based).

The repository's `src/` tree carries only the notebooks, READMEs and rendered
documentation; the library modules themselves
(`LabelstudioToFonduer/to_fonduer.py`, `to_label_studio.py`,
`lingual_parser.py`, `export.py`, `document_converter.py`) are not present.
Where a definition embeds such a missing module it is modelled from the
specification, and its doc comment says so.  The matcher functions `is_job`,
`is_city`, `is_title`, `is_date` DO appear verbatim in the notebooks and are
embedded from that source.
-/

namespace LS2F

/-- A character counts as whitespace for run-of-whitespace collapse. -/
def isWs (c : Char) : Bool :=
  c = ' ' || c = '\t' || c = '\n' || c = '\r'

/-- Run-of-whitespace collapse: every maximal run of whitespace characters
becomes one single space.  This is the whitespace normalization the matching
step applies to both sides of a text comparison. -/
def collapseWs : List Char → List Char
  | [] => []
  | [c] => [if isWs c then ' ' else c]
  | a :: b :: rest =>
    if isWs a && isWs b then collapseWs (b :: rest)
    else (if isWs a then ' ' else a) :: collapseWs (b :: rest)

/-- Whitespace normalization of a string, as a character list. -/
def normText (s : String) : List Char := collapseWs s.data

/-- An annotation from the Label Studio export, with its location already
resolved to an absolute character range in the document's canonical text
(resolution of the DOM-node-path triples is step 1 of the Span Locator). -/
structure Annotation where
  docId : String
  start : Nat
  stop : Nat
  text : String
  labelType : String
deriving DecidableEq, Repr

/-- A candidate span from the extraction pipeline, with its absolute
character range in the document's canonical text. -/
structure Candidate where
  docId : String
  start : Nat
  stop : Nat
  text : String
  ctype : String
deriving DecidableEq, Repr

/-- A gold label produced by the Span Locator; the candidate record itself
serves as the candidate id. -/
structure GoldLabel where
  cand : Candidate
  labelType : String
  value : Bool
deriving DecidableEq, Repr

/-- The three-tier diagnostic taxonomy of the alignment step. -/
inductive Diagnostic where
  | unmatchedAnnotation (docId : String) (text : String) (labelType : String)
  | unmatchedDocument (docId : String)
  | insufficientCandidates (docId : String)
deriving DecidableEq, Repr

/-- Exact match between an annotation and a candidate: identical start and
end offsets and literal text equality after whitespace normalization. -/
def annMatches (a : Annotation) (c : Candidate) : Bool :=
  c.start == a.start && c.stop == a.stop &&
    (normText c.text == normText a.text)

/-- The result of aligning one document. -/
structure AlignResult where
  gold : List GoldLabel
  diags : List Diagnostic
deriving DecidableEq, Repr

/-- Modelled from the spec: the Span Locator operation
`align(document, annotations, candidates)` of §4.3 (the library module
`to_fonduer.py` with `create_gold_function` / `is_gold` is missing from
`src/`; only its callers and warning-log output appear in the notebooks).
If the document's candidate count is below the configured minimum the
document is skipped entirely with an "insufficient candidates" diagnostic.
Otherwise each annotation is matched against the first candidate with
identical offsets and whitespace-normalized text; a match emits
`GoldLabel(candidate, labelType, true)`, a miss emits an "unmatched
annotation" diagnostic carrying document, expected text, and label type.
A document with zero matches over all its annotations additionally gets the
"unmatched document" diagnostic. -/
def align (minCands : Nat) (docId : String) (anns : List Annotation)
    (cands : List Candidate) : AlignResult :=
  if cands.length < minCands then
    { gold := [], diags := [Diagnostic.insufficientCandidates docId] }
  else
    let gold := anns.filterMap (fun a =>
      (cands.find? (annMatches a)).map (fun c =>
        { cand := c, labelType := a.labelType, value := true }))
    let unmAnn : List Diagnostic := anns.filterMap (fun a =>
      if (cands.find? (annMatches a)).isSome then none
      else some (Diagnostic.unmatchedAnnotation docId a.text a.labelType))
    let unmDoc : List Diagnostic :=
      if gold.isEmpty then [Diagnostic.unmatchedDocument docId] else []
    { gold := gold, diags := unmAnn ++ unmDoc }

/-- Count of diagnostics per category, in taxonomy order. -/
def diagCounts (r : AlignResult) : Nat × Nat × Nat :=
  ( (r.diags.filter (fun d => match d with
      | Diagnostic.unmatchedAnnotation _ _ _ => true | _ => false)).length,
    (r.diags.filter (fun d => match d with
      | Diagnostic.unmatchedDocument _ => true | _ => false)).length,
    (r.diags.filter (fun d => match d with
      | Diagnostic.insufficientCandidates _ => true | _ => false)).length )

/-! ## Segmenter -/

/-- The designated sentence terminator character the Segmenter splits on. -/
def terminator : Char := '.'

/-- A candidate boundary at index `i` of `t` is a terminator character there
whose split is not suppressed by an exception: exceptions are matched by
exact, case-sensitive trailing-substring comparison against the text ending
at (and including) the terminator. -/
def isBoundary (excs : List (List Char)) (t : List Char) (i : Nat) : Bool :=
  (t.get? i == some terminator) &&
    !(excs.any (fun e => e.isSuffixOf (t.take (i + 1))))

/-- All boundary indices of `t`, in increasing order. -/
def boundaries (excs : List (List Char)) (t : List Char) : List Nat :=
  (List.range t.length).filter (fun i => isBoundary excs t i)

/-- Half-open offset ranges cut at the successive boundaries: each boundary
at index `b` ends a sentence at offset `b + 1`; the remainder after the last
boundary forms the final sentence. -/
def rangesFrom (start : Nat) (bs : List Nat) (len : Nat) : List (Nat × Nat) :=
  match bs with
  | [] => [(start, len)]
  | b :: rest => (start, b + 1) :: rangesFrom (b + 1) rest len

/-- Modelled from the spec: the Segmenter contract
`segment(text, exceptions) -> sequence of (start, end)` of §4.2 (the library
module `lingual_parser.py` with `ModifiedSpacyParser` is missing from
`src/`; only its instantiations appear in the notebooks).  Splits strictly
on the single terminator character, suppressing a boundary whenever one of
the exception tokens is a trailing substring of the text up to and including
that terminator. -/
def segment (excs : List (List Char)) (t : List Char) : List (Nat × Nat) :=
  rangesFrom 0 (boundaries excs t) t.length

/-- The slice of `t` denoted by a half-open offset range. -/
def slice (t : List Char) (r : Nat × Nat) : List Char :=
  (t.drop r.1).take (r.2 - r.1)

/-- A sentence of the extraction pipeline's document representation. -/
structure Sentence where
  docId : String
  index : Nat
  start : Nat
  stop : Nat
  text : List Char
deriving DecidableEq, Repr

/-- Modelled from the spec: building a Document's ordered Sentence list by
running the Segmenter over its canonical text (§3, §4.2); each Sentence
carries its half-open offsets and the corresponding slice of the canonical
text. -/
def sentencesFrom (docId : String) (canonical : List Char) (idx : Nat) :
    List (Nat × Nat) → List Sentence
  | [] => []
  | r :: rest =>
    { docId := docId, index := idx, start := r.1, stop := r.2,
      text := slice canonical r } :: sentencesFrom docId canonical (idx + 1) rest

/-- The Document's ordered Sentence list: the Segmenter's ranges, indexed in
sequence order, each carrying its slice of the canonical text. -/
def sentencesOf (excs : List (List Char)) (docId : String)
    (canonical : List Char) : List Sentence :=
  sentencesFrom docId canonical 0 (segment excs canonical)

/-! ## Ngram Bound Estimator -/

/-- Token counting of the candidate tokenizer: the number of maximal runs of
non-whitespace characters.  `inWord` records whether the previous character
belonged to a token. -/
def countTokensAux (inWord : Bool) : List Char → Nat
  | [] => 0
  | c :: rest =>
    if isWs c then countTokensAux false rest
    else (if inWord then 0 else 1) + countTokensAux true rest

/-- Number of tokens of a text. -/
def countTokens (t : List Char) : Nat := countTokensAux false t

/-- Modelled from the spec: the Ngram Bound Estimator contract
`bounds(label_type, gold_spans) -> (min_tokens, max_tokens)` of §4.4 (the
library module `export.py` with `Export.ngrams` is missing from `src/`;
only its call sites appear in the notebooks).  Tokenizes each gold span of
the given label type, counts tokens, and returns the observed minimum and
maximum; a label type with zero gold spans yields `none` (an undefined
bound, recoverable by the caller) rather than a crash.  `tokenCounts` is
the per-span token count list of one label type; `bounds` reduces it. -/
def tokenCounts (labelType : String) (goldSpans : List Annotation) :
    List Nat :=
  (goldSpans.filter (fun g => g.labelType == labelType)).map
    (fun g => countTokens g.text.data)

/-- The observed (min, max) token counts, `none` when no gold span of the
label type exists. -/
def bounds (labelType : String) (goldSpans : List Annotation) :
    Option (Nat × Nat) :=
  match (tokenCounts labelType goldSpans).min?,
        (tokenCounts labelType goldSpans).max? with
  | some lo, some hi => some (lo, hi)
  | _, _ => none

/-! ## Export/Import Codec -/

/-- One mention of a higher-order candidate: a labeled span to be emitted as
one Label Studio region. -/
structure Mention where
  docId : String
  start : Nat
  stop : Nat
  text : String
  labelType : String
deriving DecidableEq, Repr

/-- A higher-order (binary relational) candidate: an ordered pair of
mentions, e.g. Fonduer's `TitleDate` or `JobCity` candidates. -/
structure CompCandidate where
  fst : Mention
  snd : Mention
deriving DecidableEq, Repr

/-- One entry of a per-document result list of the Label Studio export
schema: either a relation record or a region record. -/
inductive Entry where
  | relation (from_id : Nat) (to_id : Nat) (direction : String)
  | region (id : Nat) (start : Nat) (stop : Nat) (text : String)
      (labels : List String)
deriving DecidableEq, Repr

/-- All mentions of a candidate list, in component order. -/
def mentionsOf : List CompCandidate → List Mention
  | [] => []
  | c :: rest => c.fst :: c.snd :: mentionsOf rest

/-- The region id assigned to a mention: the position of its first
occurrence among the mentions of the exported candidates, so that repeated
emissions of one mention reuse one id. -/
def mentionId (cs : List CompCandidate) (m : Mention) : Nat :=
  (mentionsOf cs).indexOf m

/-- The region entry emitted for a mention under an id assignment. -/
def regionEntry (mid : Mention → Nat) (m : Mention) : Entry :=
  Entry.region (mid m) m.start m.stop m.text [m.labelType]

/-- The per-document result list under an id assignment: one relation entry
plus the two component region entries per candidate. -/
def exportEntries (mid : Mention → Nat) : List CompCandidate → List Entry
  | [] => []
  | c :: rest =>
    Entry.relation (mid c.fst) (mid c.snd) "right" ::
      regionEntry mid c.fst :: regionEntry mid c.snd ::
        exportEntries mid rest

/-- Modelled from the spec: `ToLabelStudio.create_export` (§4.5, export
direction; the library module `to_label_studio.py` is missing from `src/`;
its caller and its printed result list appear in the notebook).  For each
positive candidate it emits one relation entry directed "right" from the
first to the second component, followed by the two component region
entries; a region participating in several relations is re-emitted once per
relation under the same id, exactly as the notebook's printed export shows. -/
def create_export (pos : List CompCandidate) : List Entry :=
  exportEntries (mentionId pos) pos

/-- Modelled from the spec: the export direction contract
`to_external(candidates, gold_labels)` of §4.5: only the candidates whose
gold label is true are exported. -/
def to_external (cands : List (CompCandidate × Bool)) : List Entry :=
  create_export ((cands.filter (fun p => p.2)).map (fun p => p.1))

/-- The region view of a recovered annotation: the fields a region entry
carries (offsets, literal text, label type). -/
structure Region where
  start : Nat
  stop : Nat
  text : String
  labelType : String
deriving DecidableEq, Repr

/-- The region a mention is exported as. -/
def regionView (m : Mention) : Region :=
  { start := m.start, stop := m.stop, text := m.text,
    labelType := m.labelType }

/-- Modelled from the spec: the import direction contract
`from_external(export_blob) -> Annotation set` of §4.5: region entries
carrying a non-empty label list become annotation regions; relation entries
and malformed region entries (empty label list) are rejected individually
without failing the whole import. -/
def from_external (es : List Entry) : List Region :=
  es.filterMap (fun e =>
    match e with
    | Entry.region _ s t txt (l :: _) =>
      some { start := s, stop := t, text := txt, labelType := l }
    | _ => none)

/-! ## Label matcher functions (embedded from the notebook source)

The notebooks define, verbatim:
```
def is_job(mention):
    if mention.get_span() in jobs:
        return True
    else:
        False
```
(and identically `is_city`, `is_title`, `is_date`).  The `else` branch
evaluates the bare expression `False` and discards it, so the function falls
off its end and returns Python's `None` on the negative branch.  The
embedding returns `Option Bool`: `some true` for the taken `return True`,
and `none` for falling off the end. -/

/-- The matcher function `is_job` from `src/example.ipynb`, embedded
faithfully: `some true` when the mention's span is in the entity list, and
`none` (Python `None`, from the missing `return`) otherwise. -/
def is_job (jobs : List String) (span : String) : Option Bool :=
  if span ∈ jobs then some true else none

/-! ## Helper lemmas about the Segmenter -/

theorem slice_append (t : List Char) (s m e : Nat) (h1 : s ≤ m) (h2 : m ≤ e) :
    slice t (s, m) ++ slice t (m, e) = slice t (s, e) := by
  show (t.drop s).take (m - s) ++ (t.drop m).take (e - m) =
    (t.drop s).take (e - s)
  have he : e - s = (m - s) + (e - m) := by omega
  rw [he, List.take_add, List.drop_drop]
  have hm : s + (m - s) = m := by omega
  rw [hm]

theorem slice_zero_length (t : List Char) : slice t (0, t.length) = t := by
  show (t.drop 0).take (t.length - 0) = t
  simp

theorem rangesFrom_flatten (t : List Char) (bs : List Nat) :
    ∀ start : Nat, start ≤ t.length → (∀ b ∈ bs, b < t.length) →
      List.Pairwise (· < ·) bs → (∀ b ∈ bs, start ≤ b) →
      ((rangesFrom start bs t.length).map (slice t)).flatten =
        slice t (start, t.length) := by
  induction bs with
  | nil => intro start _ _ _ _; simp [rangesFrom]
  | cons b rest ih =>
    intro start hs hlt hpw hle
    obtain ⟨hbrest, hpw2⟩ := List.pairwise_cons.mp hpw
    have hb : b < t.length := hlt b (by simp)
    have hsb : start ≤ b := hle b (by simp)
    simp only [rangesFrom, List.map_cons, List.flatten_cons]
    rw [ih (b + 1) (by omega) (fun x hx => hlt x (List.mem_cons_of_mem _ hx))
        hpw2 (fun x hx => Nat.succ_le_of_lt (hbrest x hx))]
    exact slice_append t start (b + 1) t.length (by omega) (by omega)

theorem rangesFrom_chain (bs : List Nat) :
    ∀ start len : Nat, (∀ b ∈ bs, start ≤ b) → List.Pairwise (· < ·) bs →
      List.Chain' (fun p q : Nat × Nat => p.2 = q.1 ∧ p.1 < q.1)
        (rangesFrom start bs len) := by
  induction bs with
  | nil => intro start len _ _; simp [rangesFrom]
  | cons b rest ih =>
    intro start len hle hpw
    obtain ⟨hbrest, hpw2⟩ := List.pairwise_cons.mp hpw
    have hsb : start ≤ b := hle b (by simp)
    simp only [rangesFrom]
    rw [List.chain'_cons']
    refine ⟨?_, ih (b + 1) len
      (fun x hx => Nat.succ_le_of_lt (hbrest x hx)) hpw2⟩
    intro y hy
    have hy1 : y.1 = b + 1 := by
      cases rest with
      | nil =>
        simp only [rangesFrom, List.head?_cons, Option.mem_def,
          Option.some.injEq] at hy
        rw [← hy]
      | cons b2 rest2 =>
        simp only [rangesFrom, List.head?_cons, Option.mem_def,
          Option.some.injEq] at hy
        rw [← hy]
    exact ⟨hy1.symm, by omega⟩

theorem rangesFrom_le (bs : List Nat) :
    ∀ start len : Nat, start ≤ len → (∀ b ∈ bs, b < len) →
      List.Pairwise (· < ·) bs → (∀ b ∈ bs, start ≤ b) →
      ∀ p ∈ rangesFrom start bs len, p.1 ≤ p.2 := by
  induction bs with
  | nil =>
    intro start len h _ _ _ p hp
    simp [rangesFrom] at hp
    rw [hp]; exact h
  | cons b rest ih =>
    intro start len hsl hlt hpw hle p hp
    obtain ⟨hbrest, hpw2⟩ := List.pairwise_cons.mp hpw
    have hb : b < len := hlt b (by simp)
    have hsb : start ≤ b := hle b (by simp)
    simp only [rangesFrom, List.mem_cons] at hp
    rcases hp with hp | hp
    · rw [hp]; omega
    · exact ih (b + 1) len (by omega)
        (fun x hx => hlt x (List.mem_cons_of_mem _ hx)) hpw2
        (fun x hx => Nat.succ_le_of_lt (hbrest x hx)) p hp

theorem boundaries_lt (excs : List (List Char)) (t : List Char) :
    ∀ b ∈ boundaries excs t, b < t.length := by
  intro b hb
  exact List.mem_range.mp (List.mem_filter.mp hb).1

theorem boundaries_pairwise (excs : List (List Char)) (t : List Char) :
    List.Pairwise (· < ·) (boundaries excs t) :=
  (List.pairwise_lt_range t.length).filter _

theorem sentencesFrom_map_text (d : String) (c : List Char)
    (rs : List (Nat × Nat)) :
    ∀ i, (sentencesFrom d c i rs).map Sentence.text = rs.map (slice c) := by
  induction rs with
  | nil => intro i; simp [sentencesFrom]
  | cons r rest ih => intro i; simp [sentencesFrom, ih]

theorem sentencesFrom_chain (d : String) (c : List Char)
    (rs : List (Nat × Nat)) :
    ∀ i, List.Chain' (fun p q : Nat × Nat => p.2 = q.1 ∧ p.1 < q.1) rs →
      List.Chain' (fun s u : Sentence => s.stop = u.start ∧ s.start < u.start)
        (sentencesFrom d c i rs) := by
  induction rs with
  | nil => intro i _; simp [sentencesFrom]
  | cons r rest ih =>
    intro i h
    rw [List.chain'_cons'] at h
    simp only [sentencesFrom]
    rw [List.chain'_cons']
    refine ⟨?_, ih (i + 1) h.2⟩
    intro y hy
    cases rest with
    | nil => simp [sentencesFrom] at hy
    | cons r2 rest2 =>
      simp only [sentencesFrom, List.head?_cons, Option.mem_def,
        Option.some.injEq] at hy
      have hr := h.1 r2 rfl
      rw [← hy]
      exact ⟨hr.1, hr.2⟩

theorem sentencesFrom_start_le_stop (d : String) (c : List Char)
    (rs : List (Nat × Nat)) :
    ∀ i, (∀ p ∈ rs, p.1 ≤ p.2) →
      ∀ s ∈ sentencesFrom d c i rs, s.start ≤ s.stop := by
  induction rs with
  | nil => intro i _ s hs; simp [sentencesFrom] at hs
  | cons r rest ih =>
    intro i h s hs
    simp only [sentencesFrom, List.mem_cons] at hs
    rcases hs with hs | hs
    · rw [hs]; exact h r (by simp)
    · exact ih (i + 1) (fun p hp => h p (List.mem_cons_of_mem _ hp)) s hs

/-! ## Claim theorems -/

/-- **C4**: for every document, concatenating its Sentence texts in sequence
order reproduces the document's canonical text exactly (offset-additivity);
the Sentences' half-open offset ranges are contiguous, hence non-overlapping,
and monotonically increasing across the document, with each range
well-formed (start ≤ stop). -/
theorem sentences_offset_additivity (excs : List (List Char)) (docId : String)
    (canonical : List Char) :
    ((sentencesOf excs docId canonical).map Sentence.text).flatten =
      canonical ∧
    List.Chain' (fun s u : Sentence => s.stop = u.start ∧ s.start < u.start)
      (sentencesOf excs docId canonical) ∧
    ∀ s ∈ sentencesOf excs docId canonical, s.start ≤ s.stop := by
  unfold sentencesOf segment
  refine ⟨?_, ?_, ?_⟩
  · rw [sentencesFrom_map_text,
      rangesFrom_flatten canonical (boundaries excs canonical) 0
        (Nat.zero_le _) (boundaries_lt excs canonical)
        (boundaries_pairwise excs canonical) (fun _ _ => Nat.zero_le _),
      slice_zero_length]
  · exact sentencesFrom_chain _ _ _ 0
      (rangesFrom_chain _ 0 _ (fun _ _ => Nat.zero_le _)
        (boundaries_pairwise _ _))
  · exact sentencesFrom_start_le_stop _ _ _ 0
      (rangesFrom_le _ 0 _ (Nat.zero_le _) (boundaries_lt _ _)
        (boundaries_pairwise _ _) (fun _ _ => Nat.zero_le _))

/-- Witness for C4 at a concrete document. -/
theorem sentences_offset_additivity_witness :
    ((sentencesOf [] "d" "Hi. Bye.".data).map Sentence.text).flatten =
      "Hi. Bye.".data :=
  (sentences_offset_additivity [] "d" "Hi. Bye.".data).1

/-- **C5**: the Segmenter never produces a sentence boundary at a terminator
that occurs immediately after a configured exception token (matched by
exact, case-sensitive trailing-substring comparison); concretely, the text
"He works at Acme Inc. in Berlin." with exception list ["Inc."] yields
exactly two sentences, not the three obtained without the exception. -/
theorem segment_exception_suppression :
    (∀ (excs : List (List Char)) (t : List Char) (i : Nat) (e : List Char),
      e ∈ excs → e.isSuffixOf (t.take (i + 1)) = true →
      i ∉ boundaries excs t) ∧
    (segment ["Inc.".data] "He works at Acme Inc. in Berlin.".data).length
      = 2 ∧
    (segment ([] : List (List Char))
      "He works at Acme Inc. in Berlin.".data).length = 3 := by
  refine ⟨?_, by decide, by decide⟩
  intro excs t i e he hsuf hmem
  have hb := (List.mem_filter.mp hmem).2
  unfold isBoundary at hb
  simp only [Bool.and_eq_true, Bool.not_eq_true', List.any_eq_false] at hb
  exact absurd hsuf (by simpa using hb.2 e he)

/-- Witness for C5: the "Inc." terminator of the example text (index 20) is
suppressed as a boundary. -/
theorem segment_exception_suppression_witness :
    (20 : Nat) ∉ boundaries ["Inc.".data]
      "He works at Acme Inc. in Berlin.".data :=
  segment_exception_suppression.1 ["Inc.".data]
    "He works at Acme Inc. in Berlin.".data 20 "Inc.".data (by decide)
    (by decide)

/-- **C1**: every GoldLabel marked true by the align operation comes from an
annotation whose resolved absolute range has the same start and end offsets
as the matched candidate's range, and whose literal text equals the
candidate's literal text after run-of-whitespace collapse on both sides. -/
theorem align_gold_exact (m : Nat) (d : String) (anns : List Annotation)
    (cands : List Candidate) (g : GoldLabel)
    (hg : g ∈ (align m d anns cands).gold) (hv : g.value = true) :
    ∃ a ∈ anns, g.cand.start = a.start ∧ g.cand.stop = a.stop ∧
      normText g.cand.text = normText a.text ∧ g.labelType = a.labelType := by
  by_cases h : cands.length < m
  · simp [align, h] at hg
  · simp only [align, if_neg h, List.mem_filterMap] at hg
    obtain ⟨a, ha, hmap⟩ := hg
    rw [Option.map_eq_some'] at hmap
    obtain ⟨c, hfind, hc⟩ := hmap
    have hmatch := List.find?_some hfind
    unfold annMatches at hmatch
    simp only [Bool.and_eq_true, beq_iff_eq] at hmatch
    subst hc
    exact ⟨a, ha, hmatch.1.1, hmatch.1.2, hmatch.2, rfl⟩

/-- Witness for C1 at a concrete matching annotation/candidate pair. -/
theorem align_gold_exact_witness :
    ∃ a ∈ [{ docId := "d", start := 0, stop := 4, text := "Java",
             labelType := "Job" : Annotation }],
      ({ cand := { docId := "d", start := 0, stop := 4, text := "Java",
                   ctype := "Job" },
         labelType := "Job", value := true : GoldLabel }).cand.start
        = a.start ∧
      ({ cand := { docId := "d", start := 0, stop := 4, text := "Java",
                   ctype := "Job" },
         labelType := "Job", value := true : GoldLabel }).cand.stop
        = a.stop ∧
      normText ({ cand := { docId := "d", start := 0, stop := 4,
                            text := "Java", ctype := "Job" },
                  labelType := "Job", value := true : GoldLabel }).cand.text
        = normText a.text ∧
      ({ cand := { docId := "d", start := 0, stop := 4, text := "Java",
                   ctype := "Job" },
         labelType := "Job", value := true : GoldLabel }).labelType
        = a.labelType :=
  align_gold_exact 0 "d"
    [{ docId := "d", start := 0, stop := 4, text := "Java",
       labelType := "Job" }]
    [{ docId := "d", start := 0, stop := 4, text := "Java", ctype := "Job" }]
    { cand := { docId := "d", start := 0, stop := 4, text := "Java",
                ctype := "Job" },
      labelType := "Job", value := true }
    (by decide) (by decide)

/-- **C2**: the align operation recovers every per-annotation and
per-document failure (it always returns a result) and its diagnostics are
exactly the three-tier taxonomy: a document whose candidate count is below
the configured minimum is skipped entirely with the single "insufficient
candidates" diagnostic; otherwise an annotation with no matching candidate
yields an "unmatched annotation" diagnostic carrying document id, expected
text and label type, a document with zero matches yields the "unmatched
document" diagnostic (and only then), no "insufficient candidates"
diagnostic occurs, and no diagnostic of any other form is emitted. -/
theorem align_diagnostics (m : Nat) (d : String) (anns : List Annotation)
    (cands : List Candidate) :
    (cands.length < m →
      align m d anns cands =
        { gold := [], diags := [Diagnostic.insufficientCandidates d] }) ∧
    (¬ cands.length < m →
      (∀ a ∈ anns, cands.find? (annMatches a) = none →
        Diagnostic.unmatchedAnnotation d a.text a.labelType ∈
          (align m d anns cands).diags) ∧
      (Diagnostic.unmatchedDocument d ∈ (align m d anns cands).diags ↔
        (align m d anns cands).gold = []) ∧
      Diagnostic.insufficientCandidates d ∉ (align m d anns cands).diags ∧
      ∀ diag ∈ (align m d anns cands).diags,
        (∃ a ∈ anns,
          diag = Diagnostic.unmatchedAnnotation d a.text a.labelType ∧
          cands.find? (annMatches a) = none) ∨
        diag = Diagnostic.unmatchedDocument d) := by
  constructor
  · intro h; simp [align, h]
  · intro h
    have hdiags : (align m d anns cands).diags =
        anns.filterMap (fun a =>
          if (cands.find? (annMatches a)).isSome then none
          else some (Diagnostic.unmatchedAnnotation d a.text a.labelType)) ++
        (if (anns.filterMap (fun a =>
            (cands.find? (annMatches a)).map (fun c =>
              { cand := c, labelType := a.labelType, value := true
                : GoldLabel }))).isEmpty
          then [Diagnostic.unmatchedDocument d] else []) := by
      simp [align, h]
    have hgold : (align m d anns cands).gold =
        anns.filterMap (fun a =>
          (cands.find? (annMatches a)).map (fun c =>
            { cand := c, labelType := a.labelType, value := true
              : GoldLabel })) := by
      simp [align, h]
    refine ⟨?_, ?_, ?_, ?_⟩
    · intro a ha hfind
      rw [hdiags]
      refine List.mem_append_left _ (List.mem_filterMap.mpr ⟨a, ha, ?_⟩)
      simp [hfind]
    · rw [hdiags, hgold]
      constructor
      · intro hmem
        rcases List.mem_append.mp hmem with hin | hin
        · obtain ⟨a, _, heq⟩ := List.mem_filterMap.mp hin
          split at heq <;> simp at heq
        · split at hin
          · next hemp => exact List.isEmpty_iff.mp hemp
          · simp at hin
      · intro hnil
        refine List.mem_append_right _ ?_
        rw [List.isEmpty_iff.mpr hnil]
        simp
    · rw [hdiags]
      intro hmem
      rcases List.mem_append.mp hmem with hin | hin
      · obtain ⟨a, _, heq⟩ := List.mem_filterMap.mp hin
        split at heq <;> simp at heq
      · split at hin <;> simp at hin
    · rw [hdiags]
      intro diag hmem
      rcases List.mem_append.mp hmem with hin | hin
      · obtain ⟨a, ha, heq⟩ := List.mem_filterMap.mp hin
        left
        refine ⟨a, ha, ?_, ?_⟩
        · split at heq
          · simp at heq
          · simp at heq; exact heq.symm
        · split at heq
          · simp at heq
          · next hne => exact Option.not_isSome_iff_eq_none.mp (by simp [hne])
      · right
        split at hin
        · simpa using hin
        · simp at hin

/-- Witness for C2: the skipped-document tier at a concrete input. -/
theorem align_diagnostics_witness :
    align 2 "d" [] [] =
      { gold := [], diags := [Diagnostic.insufficientCandidates "d"] } :=
  (align_diagnostics 2 "d" [] []).1 (by decide)

/-- **C7**: the align operation is a deterministic function of its inputs,
so running it twice on identical (document, annotations, candidates)
inputs yields an identical GoldLabel set and identical per-category
diagnostic counts. -/
theorem align_idempotent (m : Nat) (d : String) (anns : List Annotation)
    (cands : List Candidate) :
    (align m d anns cands).gold = (align m d anns cands).gold ∧
    diagCounts (align m d anns cands) = diagCounts (align m d anns cands) :=
  ⟨rfl, rfl⟩

/-- **C9**: with candidates [(0,4,"Java"), (5,13,"Engineer")] and the single
annotation {0,13,"Java Engineer"} spanning both, align matches no candidate
and reports the annotation (and the document) as unmatched; adding a single
candidate representing the whole composite span makes it match. -/
theorem align_composite_scenario :
    align 0 "doc"
      [{ docId := "doc", start := 0, stop := 13, text := "Java Engineer",
         labelType := "Job" }]
      [{ docId := "doc", start := 0, stop := 4, text := "Java",
         ctype := "Job" },
       { docId := "doc", start := 5, stop := 13, text := "Engineer",
         ctype := "Job" }] =
      { gold := [],
        diags := [Diagnostic.unmatchedAnnotation "doc" "Java Engineer" "Job",
                  Diagnostic.unmatchedDocument "doc"] } ∧
    (align 0 "doc"
      [{ docId := "doc", start := 0, stop := 13, text := "Java Engineer",
         labelType := "Job" }]
      [{ docId := "doc", start := 0, stop := 4, text := "Java",
         ctype := "Job" },
       { docId := "doc", start := 5, stop := 13, text := "Engineer",
         ctype := "Job" },
       { docId := "doc", start := 0, stop := 13, text := "Java Engineer",
         ctype := "Job" }]).gold =
      [{ cand := { docId := "doc", start := 0, stop := 13,
                   text := "Java Engineer", ctype := "Job" },
         labelType := "Job", value := true }] :=
  ⟨by decide, by decide⟩

/-- **C8**: for a label type with at least one gold span, `bounds` returns
exactly the pair of the minimum and maximum token counts observed over the
gold spans of that label type; a label type with zero gold spans yields
`none`, a recoverable undefined bound rather than a crash. -/
theorem bounds_min_max (labelType : String) (golds : List Annotation) :
    (tokenCounts labelType golds = [] → bounds labelType golds = none) ∧
    (tokenCounts labelType golds ≠ [] →
      ∃ lo hi, bounds labelType golds = some (lo, hi) ∧
        lo ∈ tokenCounts labelType golds ∧
        hi ∈ tokenCounts labelType golds ∧
        ∀ x ∈ tokenCounts labelType golds, lo ≤ x ∧ x ≤ hi) := by
  constructor
  · intro h; simp [bounds, h]
  · intro h
    obtain ⟨lo, hlo⟩ : ∃ lo, (tokenCounts labelType golds).min? = some lo := by
      cases hmin : (tokenCounts labelType golds).min? with
      | none => exact absurd (List.min?_eq_none_iff.mp hmin) h
      | some lo => exact ⟨lo, rfl⟩
    obtain ⟨hi, hhi⟩ : ∃ hi, (tokenCounts labelType golds).max? = some hi := by
      cases hmax : (tokenCounts labelType golds).max? with
      | none => exact absurd (List.max?_eq_none_iff.mp hmax) h
      | some hi => exact ⟨hi, rfl⟩
    have hlo2 := List.min?_eq_some_iff'.mp hlo
    have hhi2 := List.max?_eq_some_iff'.mp hhi
    refine ⟨lo, hi, ?_, hlo2.1, hhi2.1,
      fun x hx => ⟨hlo2.2 x hx, hhi2.2 x hx⟩⟩
    simp [bounds, hlo, hhi]

/-- Witness for C8 at a two-span gold set. -/
theorem bounds_min_max_witness :
    ∃ lo hi,
      bounds "Job"
        [{ docId := "d", start := 0, stop := 13, text := "Java Engineer",
           labelType := "Job" },
         { docId := "d", start := 0, stop := 23,
           text := "Senior Java Backend Dev", labelType := "Job" }]
        = some (lo, hi) ∧
      lo ∈ tokenCounts "Job"
        [{ docId := "d", start := 0, stop := 13, text := "Java Engineer",
           labelType := "Job" },
         { docId := "d", start := 0, stop := 23,
           text := "Senior Java Backend Dev", labelType := "Job" }] ∧
      hi ∈ tokenCounts "Job"
        [{ docId := "d", start := 0, stop := 13, text := "Java Engineer",
           labelType := "Job" },
         { docId := "d", start := 0, stop := 23,
           text := "Senior Java Backend Dev", labelType := "Job" }] ∧
      ∀ x ∈ tokenCounts "Job"
        [{ docId := "d", start := 0, stop := 13, text := "Java Engineer",
           labelType := "Job" },
         { docId := "d", start := 0, stop := 23,
           text := "Senior Java Backend Dev", labelType := "Job" }],
        lo ≤ x ∧ x ≤ hi :=
  (bounds_min_max "Job"
    [{ docId := "d", start := 0, stop := 13, text := "Java Engineer",
       labelType := "Job" },
     { docId := "d", start := 0, stop := 23,
       text := "Senior Java Backend Dev", labelType := "Job" }]).2
    (by decide)

/-! ## Helper lemmas about the codec -/

theorem from_external_exportEntries (mid : Mention → Nat)
    (pos : List CompCandidate) :
    from_external (exportEntries mid pos) =
      (mentionsOf pos).map regionView := by
  induction pos with
  | nil => simp [exportEntries, mentionsOf, from_external]
  | cons c rest ih =>
    simp only [exportEntries, mentionsOf, from_external, regionEntry,
      List.filterMap_cons, List.map_cons] at ih ⊢
    rw [ih]
    rfl

theorem mem_exportEntries_relation (mid : Mention → Nat)
    (pos : List CompCandidate) (f t : Nat) (dir : String)
    (h : Entry.relation f t dir ∈ exportEntries mid pos) :
    dir = "right" ∧ ∃ c ∈ pos, mid c.fst = f ∧ mid c.snd = t := by
  induction pos with
  | nil => simp [exportEntries] at h
  | cons c rest ih =>
    simp only [exportEntries, List.mem_cons] at h
    rcases h with h | h | h | h
    · simp only [Entry.relation.injEq] at h
      exact ⟨h.2.2, c, by simp, h.1.symm, h.2.1.symm⟩
    · simp [regionEntry] at h
    · simp [regionEntry] at h
    · obtain ⟨hdir, c2, hc2, hmid⟩ := ih h
      exact ⟨hdir, c2, List.mem_cons_of_mem _ hc2, hmid⟩

theorem mem_exportEntries_region (mid : Mention → Nat)
    (pos : List CompCandidate) (c : CompCandidate) (hc : c ∈ pos) :
    regionEntry mid c.fst ∈ exportEntries mid pos ∧
    regionEntry mid c.snd ∈ exportEntries mid pos := by
  induction pos with
  | nil => simp at hc
  | cons c0 rest ih =>
    rcases List.mem_cons.mp hc with h | h
    · subst h; simp [exportEntries]
    · have h2 := ih h
      constructor
      · exact List.mem_cons_of_mem _ (List.mem_cons_of_mem _
          (List.mem_cons_of_mem _ h2.1))
      · exact List.mem_cons_of_mem _ (List.mem_cons_of_mem _
          (List.mem_cons_of_mem _ h2.2))

theorem exportEntries_region_ids (mid : Mention → Nat)
    (pos : List CompCandidate) :
    (exportEntries mid pos).filterMap (fun e => match e with
      | Entry.region i _ _ _ _ => some i | _ => none) =
      (mentionsOf pos).map mid := by
  induction pos with
  | nil => simp [exportEntries, mentionsOf]
  | cons c rest ih =>
    simp only [exportEntries, mentionsOf, regionEntry, List.filterMap_cons,
      List.map_cons] at ih ⊢
    rw [ih]

/-- **C3**: importing the export round-trips: `from_external` applied to
`to_external(candidates, gold_labels)` yields exactly the regions of the
positive candidates' mentions, in order — the recovered annotation set's
regions exactly match the positive candidates used to build the export. -/
theorem roundtrip_export_import (cands : List (CompCandidate × Bool)) :
    from_external (to_external cands) =
      (mentionsOf ((cands.filter (fun p => p.2)).map (fun p => p.1))).map
        regionView := by
  unfold to_external create_export
  exact from_external_exportEntries _ _

/-- **C10**: in every result list produced by `create_export`, each relation
entry has direction "right" and from_id/to_id reference region entries
present in the same list; the region ids emitted are exactly one per
candidate component occurrence (so a region in several relations is
re-emitted once per relation under the same id), and on a concrete export
with a shared component the region ids are not unique. -/
theorem create_export_invariants (pos : List CompCandidate) :
    (∀ f t dir, Entry.relation f t dir ∈ create_export pos →
      dir = "right" ∧
      (∃ s e txt ls, Entry.region f s e txt ls ∈ create_export pos) ∧
      (∃ s e txt ls, Entry.region t s e txt ls ∈ create_export pos)) ∧
    (create_export pos).filterMap (fun e => match e with
        | Entry.region i _ _ _ _ => some i | _ => none) =
      (mentionsOf pos).map (mentionId pos) ∧
    ¬ ((create_export
        [{ fst := { docId := "d", start := 0, stop := 4, text := "T1",
                    labelType := "Title" },
           snd := { docId := "d", start := 10, stop := 12, text := "D",
                    labelType := "Date" } },
         { fst := { docId := "d", start := 6, stop := 8, text := "T2",
                    labelType := "Title" },
           snd := { docId := "d", start := 10, stop := 12, text := "D",
                    labelType := "Date" } }]).filterMap
      (fun e => match e with
        | Entry.region i _ _ _ _ => some i | _ => none)).Nodup := by
  refine ⟨?_, exportEntries_region_ids _ _, by decide⟩
  intro f t dir h
  obtain ⟨hdir, c, hc, hf, ht⟩ := mem_exportEntries_relation _ _ _ _ _ h
  have hreg := mem_exportEntries_region (mentionId pos) pos c hc
  refine ⟨hdir, ?_, ?_⟩
  · exact ⟨c.fst.start, c.fst.stop, c.fst.text, [c.fst.labelType],
      by rw [← hf]; exact hreg.1⟩
  · exact ⟨c.snd.start, c.snd.stop, c.snd.text, [c.snd.labelType],
      by rw [← ht]; exact hreg.2⟩

/-- Witness for C10: the relation invariant at the notebook-shaped concrete
export of one candidate. -/
theorem create_export_invariants_witness :
    ("right" : String) = "right" ∧
    (∃ s e txt ls, Entry.region 0 s e txt ls ∈ create_export
      [{ fst := { docId := "d", start := 7, stop := 91, text := "T",
                  labelType := "Title" },
         snd := { docId := "d", start := 15, stop := 46, text := "D",
                  labelType := "Date" } }]) ∧
    (∃ s e txt ls, Entry.region 1 s e txt ls ∈ create_export
      [{ fst := { docId := "d", start := 7, stop := 91, text := "T",
                  labelType := "Title" },
         snd := { docId := "d", start := 15, stop := 46, text := "D",
                  labelType := "Date" } }]) :=
  (create_export_invariants
    [{ fst := { docId := "d", start := 7, stop := 91, text := "T",
                labelType := "Title" },
       snd := { docId := "d", start := 15, stop := 46, text := "D",
                labelType := "Date" } }]).1 0 1 "right" (by decide)

/-- **C6**: the matcher predicate embedded from the notebook source does NOT
return the boolean False on the negative branch: the bare `False` expression
in the `else` branch lacks a `return`, so the function falls off its end and
yields Python's None (`none` here) for a span outside the entity set, while
it does return True on the positive branch. -/
theorem is_job_negative_branch_none :
    is_job ["Java Engineer"] "Java Engineer" = some true ∧
    is_job ["Java Engineer"] "Plumber" = none ∧
    is_job ["Java Engineer"] "Plumber" ≠ some false := by
  exact ⟨by decide, by decide, by decide⟩

end LS2F
